import Mathlib

/-!
Verification of the portero MCP gateway (TypeScript sources) against its
natural-language specification.  The TypeScript code is shallowly embedded:
strings are lists of characters, JSON payloads are a `Json` inductive,
file-backed stores are explicit list-valued states, and the request pipeline
is a pure function of an environment describing the outcome of each external
effect (backend dispatch, Telegram send).
-/

namespace Portero

/-- Strings of the embedded program are lists of characters. -/
abbrev Str := List Char

/-! ## Pattern matcher

Embeds `matchesPattern` (identical copies in `middleware/anonymizer.ts`
(PolicyEngine), `db/grants.ts` and `db/policy-rules.ts`).  The source builds a
JavaScript regex from the pattern by
  1. escaping regex metacharacters other than `*` (semantically this only makes
     them literal, so the embedding keeps every non-star character literal),
  2. replacing every `**` by the marker text `__DOUBLE_WILDCARD__`,
  3. replacing every remaining `*` by `[^/]*`,
  4. replacing every occurrence of `__DOUBLE_WILDCARD__` by `.*`,
and testing the anchored regex `^...$` against the tool name.  Step 4 rewrites
marker text that was already present in the original pattern as well, which the
embedding reproduces.  In a JavaScript regex without flags, `[^/]*` matches any
run of characters other than `/` (including newlines) and `.*` matches any run
of characters that contains no line terminator (`\n`, `\r`, U+2028, U+2029);
`^`/`$` anchor at the ends of the whole string. -/

/-- The marker string `__DOUBLE_WILDCARD__` used by the source. -/
def marker : Str := "__DOUBLE_WILDCARD__".toList

/-- Step 2 of the source's chain: replace every `**` (leftmost first) by the
marker text, leaving all other characters in place. -/
def stepB : Str → Str
  | '*' :: '*' :: t => marker ++ stepB t
  | c :: t => c :: stepB t
  | [] => []

/-- One atom of the compiled regex: a literal character, `[^/]*`, or `.*`. -/
inductive Tok where
  | lit (c : Char)
  | star
  | dstar
deriving DecidableEq, Repr

/-- Step 3: a remaining single `*` becomes `[^/]*`; every other character is a
literal atom (the escaping step of the source only makes metacharacters
literal). -/
def charTok (c : Char) : Tok := if c = '*' then Tok.star else Tok.lit c

def stepC (s : Str) : List Tok := s.map charTok

/-- The marker as a run of literal atoms. -/
def markerToks : List Tok := marker.map Tok.lit

/-- Step 4 of the source's chain, with explicit fuel (one unit per consumed
atom, so `toks.length` always suffices): every occurrence (leftmost first) of
the 19-atom marker becomes `.*`. -/
def stepDF : Nat → List Tok → List Tok
  | 0, toks => toks
  | _ + 1, [] => []
  | f + 1, t :: ts =>
    if markerToks.isPrefixOf (t :: ts) then
      Tok.dstar :: stepDF f ((t :: ts).drop markerToks.length)
    else t :: stepDF f ts

/-- Step 4 of the source's chain: every occurrence (leftmost first) of the
marker becomes `.*`. -/
def stepD (toks : List Tok) : List Tok := stepDF toks.length toks

/-- The token list of the compiled regex for a pattern. -/
def compile (pattern : Str) : List Tok := stepD (stepC (stepB pattern))

/-- JavaScript line terminators, which `.` does not match. -/
def isLineTerm (c : Char) : Bool :=
  c == '\n' || c == '\r' || c == '\u2028' || c == '\u2029'

/-- Suffixes of `s` obtained by deleting a prefix containing no `/` —
the ways `[^/]*` can consume input. -/
def nonSlashSuffixes : Str → List Str
  | [] => [[]]
  | x :: xs => (x :: xs) :: (if x == '/' then [] else nonSlashSuffixes xs)

/-- Suffixes of `s` obtained by deleting a prefix containing no line
terminator — the ways `.*` can consume input. -/
def nonTermSuffixes : Str → List Str
  | [] => [[]]
  | x :: xs => (x :: xs) :: (if isLineTerm x then [] else nonTermSuffixes xs)

/-- Anchored matching of the compiled regex: literals match themselves,
`[^/]*` consumes any slash-free run, `.*` any terminator-free run, and the
whole subject must be consumed. -/
def rmatch : List Tok → Str → Bool
  | [], s => s.isEmpty
  | Tok.lit _ :: _, [] => false
  | Tok.lit c :: ts, x :: xs => c == x && rmatch ts xs
  | Tok.star :: ts, s => (nonSlashSuffixes s).any fun s2 => rmatch ts s2
  | Tok.dstar :: ts, s => (nonTermSuffixes s).any fun s2 => rmatch ts s2

/-- `matchesPattern(toolName, pattern)` from the source: a bare `*` matches
everything, otherwise the compiled anchored regex is tested. -/
def matchesPattern (toolName pattern : Str) : Bool :=
  if pattern = "*".toList then true else rmatch (compile pattern) toolName

/-- Greedy tokenization of a pattern that contains no marker text: `**`
becomes `.*`, a single `*` becomes `[^/]*`, anything else is literal. -/
def tokenizePure : Str → List Tok
  | '*' :: '*' :: t => Tok.dstar :: tokenizePure t
  | '*' :: t => Tok.star :: tokenizePure t
  | c :: t => Tok.lit c :: tokenizePure t
  | [] => []

lemma stepC_append (a b : Str) : stepC (a ++ b) = stepC a ++ stepC b :=
  List.map_append _ a b

lemma markerToks_eq :
    markerToks =
      [Tok.lit '_', Tok.lit '_', Tok.lit 'D', Tok.lit 'O', Tok.lit 'U',
       Tok.lit 'B', Tok.lit 'L', Tok.lit 'E', Tok.lit '_', Tok.lit 'W',
       Tok.lit 'I', Tok.lit 'L', Tok.lit 'D', Tok.lit 'C', Tok.lit 'A',
       Tok.lit 'R', Tok.lit 'D', Tok.lit '_', Tok.lit '_'] := by decide

lemma isPrefixOf_self_append {α : Type} [DecidableEq α] (a b : List α) :
    a.isPrefixOf (a ++ b) = true := by
  induction a with
  | nil => simp [List.isPrefixOf]
  | cons x xs ih => simp [List.isPrefixOf, ih]

/-- The result of `stepDF` does not depend on the fuel, as long as the fuel is
at least the number of atoms. -/
lemma stepDF_fuel : ∀ (f g : Nat) (toks : List Tok),
    toks.length ≤ f → toks.length ≤ g → stepDF f toks = stepDF g toks := by
  intro f
  induction f with
  | zero =>
    intro g toks hf _
    have : toks = [] := List.eq_nil_of_length_eq_zero (Nat.le_zero.mp hf)
    subst this
    cases g <;> rfl
  | succ f ih =>
    intro g toks hf hg
    cases toks with
    | nil => cases g <;> rfl
    | cons t ts =>
      cases g with
      | zero => simp at hg
      | succ g =>
        show stepDF (f + 1) (t :: ts) = stepDF (g + 1) (t :: ts)
        rw [stepDF, stepDF]
        by_cases hpre : markerToks.isPrefixOf (t :: ts) = true
        · rw [if_pos hpre, if_pos hpre]
          have hmlen : 1 ≤ markerToks.length := by rw [markerToks_eq]; decide
          have hlen : ((t :: ts).drop markerToks.length).length ≤ f := by
            simp only [List.length_drop, List.length_cons]
            simp only [List.length_cons] at hf
            omega
          have hlen2 : ((t :: ts).drop markerToks.length).length ≤ g := by
            simp only [List.length_drop, List.length_cons]
            simp only [List.length_cons] at hg
            omega
          rw [ih _ _ hlen hlen2]
        · rw [if_neg hpre, if_neg hpre]
          have hlen : ts.length ≤ f := by simp only [List.length_cons] at hf; omega
          have hlen2 : ts.length ≤ g := by simp only [List.length_cons] at hg; omega
          rw [ih _ _ hlen hlen2]

lemma stepDF_marker (f : Nat) (rest : List Tok) :
    stepDF (f + 1) (markerToks ++ rest) = Tok.dstar :: stepDF f rest := by
  rcases hcons : markerToks ++ rest with _ | ⟨t, ts⟩
  · rw [markerToks_eq] at hcons; simp at hcons
  · have hpre : markerToks.isPrefixOf (t :: ts) = true := by
      rw [← hcons]; exact isPrefixOf_self_append markerToks rest
    rw [stepDF, if_pos hpre, ← hcons, List.drop_left]

lemma stepD_marker (rest : List Tok) :
    stepD (markerToks ++ rest) = Tok.dstar :: stepD rest := by
  have h19 : markerToks.length = 19 := by rw [markerToks_eq]; rfl
  rw [stepD, stepD, List.length_append, h19,
    show 19 + rest.length = (18 + rest.length) + 1 from by omega, stepDF_marker]
  congr 1
  exact stepDF_fuel (18 + rest.length) rest.length rest (by omega) (le_refl _)

lemma stepD_cons_not_marker (t : Tok) (ts : List Tok)
    (h : ¬ markerToks.isPrefixOf (t :: ts) = true) :
    stepD (t :: ts) = t :: stepD ts := by
  rw [stepD, List.length_cons, stepDF, if_neg h, stepD]

lemma marker_head : ∀ ts, markerToks.isPrefixOf (Tok.star :: ts) = false ∧
    markerToks.isPrefixOf (Tok.dstar :: ts) = false := by
  intro ts
  rw [markerToks_eq]
  constructor <;> rfl

lemma stepD_star (ts : List Tok) : stepD (Tok.star :: ts) = Tok.star :: stepD ts :=
  stepD_cons_not_marker _ _ (by simp [(marker_head ts).1])

lemma stepD_dstar (ts : List Tok) : stepD (Tok.dstar :: ts) = Tok.dstar :: stepD ts :=
  stepD_cons_not_marker _ _ (by simp [(marker_head ts).2])

lemma stepD_lit (c : Char) (ts : List Tok)
    (h : ¬ markerToks.isPrefixOf (Tok.lit c :: ts) = true) :
    stepD (Tok.lit c :: ts) = Tok.lit c :: stepD ts :=
  stepD_cons_not_marker _ _ h

/-! Unconditional equations for `stepB` and `tokenizePure` on disjoint head
shapes. -/

lemma stepB_dd (t : Str) : stepB ('*' :: '*' :: t) = marker ++ stepB t := rfl

lemma stepB_cons_ne (c : Char) (t : Str) (h : c ≠ '*') :
    stepB (c :: t) = c :: stepB t := by
  rw [stepB.eq_def]
  split
  · rename_i t2 heq
    rw [List.cons.injEq] at heq
    exact absurd heq.1 h
  · rename_i c2 t2 heq h1
    injection h1 with e1 e2
    subst e1
    subst e2
    rfl
  · rename_i heq
    simp at heq

lemma stepB_star_cons (x : Char) (xs : Str) (h : x ≠ '*') :
    stepB ('*' :: x :: xs) = '*' :: stepB (x :: xs) := by
  rw [stepB.eq_def]
  split
  · rename_i t2 heq
    rw [List.cons.injEq, List.cons.injEq] at heq
    exact absurd heq.2.1 h
  · rename_i c2 t2 heq h1
    injection h1 with e1 e2
    subst e1
    subst e2
    rfl
  · rename_i heq
    simp at heq

lemma tokenizePure_dd (t : Str) :
    tokenizePure ('*' :: '*' :: t) = Tok.dstar :: tokenizePure t := rfl

lemma tokenizePure_cons_ne (c : Char) (t : Str) (h : c ≠ '*') :
    tokenizePure (c :: t) = Tok.lit c :: tokenizePure t := by
  rw [tokenizePure.eq_def]
  split
  · rename_i t2 heq
    rw [List.cons.injEq] at heq
    exact absurd heq.1 h
  · rename_i t2 heq h1
    injection h1 with e1 e2
    exact absurd e1 h
  · rename_i c2 t2 heq h1 h2
    injection h2 with e1 e2
    subst e1
    subst e2
    rfl
  · rename_i heq
    simp at heq

lemma tokenizePure_star_cons (x : Char) (xs : Str) (h : x ≠ '*') :
    tokenizePure ('*' :: x :: xs) = Tok.star :: tokenizePure (x :: xs) := by
  rw [tokenizePure.eq_def]
  split
  · rename_i t2 heq
    rw [List.cons.injEq, List.cons.injEq] at heq
    exact absurd heq.2.1 h
  · rename_i t2 heq h1
    injection h1 with e1 e2
    subst e2
    rfl
  · rename_i c2 t2 heq h1 h2
    injection h2 with e1 e2
    exact absurd e1.symm h1
  · rename_i heq
    simp at heq

/-! Facts about the marker string, all decidable. -/

lemma marker_len : marker.length = 19 := by decide

lemma star_not_mem_marker : '*' ∉ marker := by decide

lemma mid_drop_not_marker_pre : ∀ k, k < 17 → 1 ≤ k →
    (marker.drop k).isPrefixOf marker = false := by decide

/-- A prefix no longer than the left part of an append is a prefix of the
left part. -/
lemma isPrefixOf_append_short {α : Type} [DecidableEq α] :
    ∀ (p a b : List α), p.isPrefixOf (a ++ b) = true → p.length ≤ a.length →
      p.isPrefixOf a = true := by
  intro p
  induction p with
  | nil => intro a b _ _; simp [List.isPrefixOf]
  | cons x xs ih =>
    intro a b hpre hlen
    cases a with
    | nil => simp at hlen
    | cons y ys =>
      simp only [List.cons_append, List.isPrefixOf, Bool.and_eq_true] at hpre ⊢
      refine ⟨hpre.1, ih ys b hpre.2 ?_⟩
      simp only [List.length_cons] at hlen
      omega

lemma drop_cons_of_lt {α : Type} :
    ∀ (l : List α) (n : Nat), n < l.length →
      ∃ c, l.drop n = c :: l.drop (n + 1) ∧ c ∈ l := by
  intro l
  induction l with
  | nil => intro n hn; simp at hn
  | cons x xs ih =>
    intro n hn
    cases n with
    | zero => exact ⟨x, rfl, List.mem_cons_self x xs⟩
    | succ n =>
      simp only [List.length_cons, Nat.succ_lt_succ_iff] at hn
      obtain ⟨c, hc, hmem⟩ := ih n hn
      exact ⟨c, hc, List.mem_cons_of_mem x hmem⟩

/-- If the middle of the marker (dropping `k ∈ [1,16]` characters) is a prefix
of `stepB t`, those characters were present verbatim in `t`: replacement blocks
inserted by `stepB` cannot supply them. -/
lemma stepB_mid : ∀ (len : Nat) (t : Str), t.length ≤ len → ∀ k, 1 ≤ k → k ≤ 16 →
    (marker.drop k).isPrefixOf (stepB t) = true →
    ((marker.drop k).take (17 - k)).isPrefixOf t = true := by
  intro len
  induction len with
  | zero =>
    intro t hl k h1 h16 hpre
    have ht : t = [] := List.eq_nil_of_length_eq_zero (Nat.le_zero.mp hl)
    subst ht
    obtain ⟨c, hc, -⟩ := drop_cons_of_lt marker k (by rw [marker_len]; omega)
    rw [hc] at hpre
    simp [List.isPrefixOf, stepB] at hpre
  | succ len ih =>
    intro t hl k h1 h16 hpre
    obtain ⟨mk, hmk, hmkmem⟩ := drop_cons_of_lt marker k (by rw [marker_len]; omega)
    rcases t with - | ⟨c, t1⟩
    · rw [hmk] at hpre
      simp [List.isPrefixOf, stepB] at hpre
    by_cases hc : c = '*'
    · subst hc
      rcases t1 with - | ⟨x, xs⟩
      · -- t = ['*']
        rw [hmk, show stepB ['*'] = ['*'] from rfl] at hpre
        simp only [List.isPrefixOf, Bool.and_eq_true, beq_iff_eq] at hpre
        obtain ⟨hstar, hrest⟩ := hpre
        exact absurd (hstar ▸ hmkmem) star_not_mem_marker
      by_cases hx : x = '*'
      · -- double star head: the marker block cannot supply a mid-marker prefix
        subst hx
        rw [stepB_dd] at hpre
        have hshort : (marker.drop k).length ≤ marker.length := by
          rw [List.length_drop]; omega
        have := isPrefixOf_append_short _ _ _ hpre hshort
        rw [mid_drop_not_marker_pre k (by omega) h1] at this
        exact absurd this (by simp)
      · rw [stepB_star_cons x xs hx, hmk] at hpre
        simp only [List.isPrefixOf, Bool.and_eq_true, beq_iff_eq] at hpre
        exact absurd (hpre.1 ▸ hmkmem) star_not_mem_marker
    · rw [stepB_cons_ne c t1 hc, hmk] at hpre
      simp only [List.isPrefixOf, Bool.and_eq_true, beq_iff_eq] at hpre
      obtain ⟨hhead, htail⟩ := hpre
      by_cases hk16 : k = 16
      · subst hk16
        rw [hmk, show 17 - 16 = 1 from rfl, List.take_succ_cons, List.take_zero]
        simp [List.isPrefixOf, hhead]
      · have hlt : t1.length ≤ len := by
          simp only [List.length_cons] at hl; omega
        have hrec := ih t1 hlt (k + 1) (by omega) (by omega) htail
        rw [hmk, show 17 - k = (16 - k) + 1 from by omega, List.take_succ_cons]
        simp only [List.isPrefixOf, Bool.and_eq_true, beq_iff_eq]
        refine ⟨hhead, ?_⟩
        rw [show 16 - k = 17 - (k + 1) from by omega]
        exact hrec

/-- Transfer of prefix testing through `stepC` for star-free strings. -/
lemma map_lit_isPrefixOf : ∀ (w x : Str), '*' ∉ w →
    ((w.map Tok.lit).isPrefixOf (stepC x) = w.isPrefixOf x) := by
  intro w
  induction w with
  | nil => intro x _; simp [List.isPrefixOf]
  | cons a as ih =>
    intro x hw
    cases x with
    | nil => simp [stepC, List.isPrefixOf]
    | cons y ys =>
      have hanotstar : a ≠ '*' := fun h => hw (h ▸ List.mem_cons_self a as)
      have has : '*' ∉ as := fun h => hw (List.mem_cons_of_mem a h)
      simp only [List.map_cons, stepC, List.isPrefixOf]
      by_cases hy : y = '*'
      · subst hy
        simp only [charTok, if_pos rfl]
        have h1 : (Tok.lit a == Tok.star) = false := by rfl
        have h2 : (a == '*') = false := by
          simp only [beq_eq_false_iff_ne]; exact hanotstar
        simp [h1, h2]
      · simp only [charTok, if_neg hy]
        have : (Tok.lit a == Tok.lit y) = (a == y) := by
          cases hb : a == y
          · simp only [beq_eq_false_iff_ne] at hb
            simp [beq_eq_false_iff_ne, Tok.lit.injEq, hb]
          · simp only [beq_iff_eq] at hb
            subst hb
            simp
        have ih2 := ih ys has
        simp only [stepC] at ih2
        rw [this, ih2]

/-- If a tool name has no `WILDCARD` fragment, the compiled token list cannot
open with the marker after a literal head was consumed. -/
lemma no_mid_marker (t : Str) (hw : ¬ ("WILDCARD".toList <:+: t)) :
    ¬ ((marker.drop 1).isPrefixOf (stepB t) = true) := by
  intro hpre
  have h16 := stepB_mid (t.length) t (le_refl _) 1 (by omega) (by omega) hpre
  have heq : (marker.drop 1).take (17 - 1) = "_DOUBLE_WILDCARD".toList := by decide
  rw [heq] at h16
  have hprefix : "_DOUBLE_WILDCARD".toList <+: t :=
    List.isPrefixOf_iff_prefix.mp h16
  have hinfix : "WILDCARD".toList <:+: "_DOUBLE_WILDCARD".toList :=
    ⟨"_DOUBLE_".toList, [], by decide⟩
  exact hw (List.IsInfix.trans hinfix (List.IsPrefix.isInfix hprefix))

lemma infix_of_infix_tail {w : Str} {c : Char} {t : Str}
    (h : w <:+: t) : w <:+: c :: t := by
  obtain ⟨s, u, hsu⟩ := h
  exact ⟨c :: s, u, by rw [← hsu]; rfl⟩

lemma stepC_marker : stepC marker = markerToks := by decide

/-- On patterns free of the `WILDCARD` fragment, the source's replacement
chain produces exactly the greedy tokenization. -/
lemma compile_no_wildcard : ∀ (len : Nat) (n : Str), n.length ≤ len →
    ¬ ("WILDCARD".toList <:+: n) → compile n = tokenizePure n := by
  intro len
  induction len with
  | zero =>
    intro n hl _
    have : n = [] := List.eq_nil_of_length_eq_zero (Nat.le_zero.mp hl)
    subst this
    rfl
  | succ len ih =>
    intro n hl hw
    rcases n with - | ⟨c, n1⟩
    · rfl
    have hwtail : ¬ ("WILDCARD".toList <:+: n1) :=
      fun h => hw (infix_of_infix_tail h)
    by_cases hc : c = '*'
    · subst hc
      rcases n1 with - | ⟨x, n2⟩
      · decide
      by_cases hx : x = '*'
      · subst hx
        have hwtail2 : ¬ ("WILDCARD".toList <:+: n2) :=
          fun h => hw (infix_of_infix_tail (infix_of_infix_tail h))
        rw [tokenizePure_dd]
        show stepD (stepC (stepB ('*' :: '*' :: n2))) = _
        rw [stepB_dd, stepC_append, stepC_marker, stepD_marker]
        have hlen : n2.length ≤ len := by
          simp only [List.length_cons] at hl; omega
        rw [show stepD (stepC (stepB n2)) = compile n2 from rfl, ih n2 hlen hwtail2]
      · rw [tokenizePure_star_cons x n2 hx]
        show stepD (stepC (stepB ('*' :: x :: n2))) = _
        rw [stepB_star_cons x n2 hx]
        have : stepC ('*' :: stepB (x :: n2)) = Tok.star :: stepC (stepB (x :: n2)) := by
          simp [stepC, charTok]
        rw [this, stepD_star]
        have hlen : (x :: n2).length ≤ len := by
          simp only [List.length_cons] at hl ⊢; omega
        rw [show stepD (stepC (stepB (x :: n2))) = compile (x :: n2) from rfl,
          ih (x :: n2) hlen hwtail]
    · rw [tokenizePure_cons_ne c n1 hc]
      show stepD (stepC (stepB (c :: n1))) = _
      rw [stepB_cons_ne c n1 hc]
      have hhead : stepC (c :: stepB n1) = Tok.lit c :: stepC (stepB n1) := by
        simp [stepC, charTok, hc]
      rw [hhead]
      have hnopre : ¬ (markerToks.isPrefixOf (Tok.lit c :: stepC (stepB n1)) = true) := by
        intro hpre
        have hdecomp : markerToks = Tok.lit '_' :: (marker.drop 1).map Tok.lit := by decide
        rw [hdecomp] at hpre
        simp only [List.isPrefixOf, Bool.and_eq_true] at hpre
        have : (marker.drop 1).isPrefixOf (stepB n1) = true := by
          rw [← map_lit_isPrefixOf (marker.drop 1) (stepB n1) (by decide)]
          exact hpre.2
        exact no_mid_marker n1 hwtail this
      rw [stepD_lit c _ hnopre]
      have hlen : n1.length ≤ len := by
        simp only [List.length_cons] at hl; omega
      rw [show stepD (stepC (stepB n1)) = compile n1 from rfl, ih n1 hlen hwtail]

lemma self_mem_nonTermSuffixes : ∀ s : Str, s ∈ nonTermSuffixes s := by
  intro s
  cases s with
  | nil => simp [nonTermSuffixes]
  | cons x xs => simp [nonTermSuffixes]

lemma self_mem_nonSlashSuffixes : ∀ s : Str, s ∈ nonSlashSuffixes s := by
  intro s
  cases s with
  | nil => simp [nonSlashSuffixes]
  | cons x xs => simp [nonSlashSuffixes]

/-- The greedy tokenization of a string matches the string itself. -/
lemma rmatch_tokenizePure : ∀ (len : Nat) (n : Str), n.length ≤ len →
    rmatch (tokenizePure n) n = true := by
  intro len
  induction len with
  | zero =>
    intro n hl
    have : n = [] := List.eq_nil_of_length_eq_zero (Nat.le_zero.mp hl)
    subst this
    rfl
  | succ len ih =>
    intro n hl
    rcases n with - | ⟨c, n1⟩
    · rfl
    by_cases hc : c = '*'
    · subst hc
      rcases n1 with - | ⟨x, n2⟩
      · decide
      by_cases hx : x = '*'
      · subst hx
        rw [tokenizePure_dd]
        show (nonTermSuffixes ('*' :: '*' :: n2)).any
            (fun s2 => rmatch (tokenizePure n2) s2) = true
        rw [List.any_eq_true]
        refine ⟨n2, ?_, ih n2 (by simp only [List.length_cons] at hl; omega)⟩
        show n2 ∈ ('*' :: '*' :: n2) ::
          (if ('*' == '/') = true then [] else nonTermSuffixes ('*' :: n2))
        rw [if_neg (by decide)]
        refine List.mem_cons_of_mem _ ?_
        show n2 ∈ ('*' :: n2) ::
          (if ('*' == '/') = true then [] else nonTermSuffixes n2)
        rw [if_neg (by decide)]
        exact List.mem_cons_of_mem _ (self_mem_nonTermSuffixes n2)
      · rw [tokenizePure_star_cons x n2 hx]
        show (nonSlashSuffixes ('*' :: x :: n2)).any
            (fun s2 => rmatch (tokenizePure (x :: n2)) s2) = true
        rw [List.any_eq_true]
        refine ⟨x :: n2, ?_, ih (x :: n2) (by simp only [List.length_cons] at hl ⊢; omega)⟩
        show x :: n2 ∈ ('*' :: x :: n2) ::
          (if ('*' == '/') = true then [] else nonSlashSuffixes (x :: n2))
        rw [if_neg (by decide)]
        exact List.mem_cons_of_mem _ (self_mem_nonSlashSuffixes (x :: n2))
    · rw [tokenizePure_cons_ne c n1 hc]
      show (c == c && rmatch (tokenizePure n1) n1) = true
      rw [Bool.and_eq_true, beq_iff_eq]
      exact ⟨rfl, ih n1 (by simp only [List.length_cons] at hl; omega)⟩

lemma empty_mem_nonSlashSuffixes : ∀ s : Str, [] ∈ nonSlashSuffixes s ↔ '/' ∉ s := by
  intro s
  induction s with
  | nil => simp [nonSlashSuffixes]
  | cons x xs ih =>
    show ([] ∈ (x :: xs) :: (if (x == '/') = true then [] else nonSlashSuffixes xs)) ↔ _
    by_cases hx : x = '/'
    · subst hx
      rw [if_pos (by decide)]
      simp
    · rw [if_neg (by simp [hx])]
      simp only [List.mem_cons, List.mem_singleton]
      constructor
      · intro h
        rcases h with h | h
        · simp at h
        · intro hmem
          rcases hmem with h2 | h2
          · exact hx h2.symm
          · exact (ih.mp h) h2
      · intro h
        right
        exact ih.mpr (fun hmem => h (Or.inr hmem))

lemma empty_mem_nonTermSuffixes : ∀ s : Str, (∀ c ∈ s, isLineTerm c = false) →
    [] ∈ nonTermSuffixes s := by
  intro s
  induction s with
  | nil => intro _; simp [nonTermSuffixes]
  | cons x xs ih =>
    intro h
    show [] ∈ (x :: xs) :: (if isLineTerm x = true then [] else nonTermSuffixes xs)
    rw [if_neg (by rw [h x (List.mem_cons_self x xs)]; simp)]
    exact List.mem_cons_of_mem _ (ih fun c hc => h c (List.mem_cons_of_mem x hc))

/-- `[^/]*` alone accepts exactly the slash-free strings. -/
lemma rmatch_single_star (s : Str) : rmatch [Tok.star] s = true ↔ '/' ∉ s := by
  show (nonSlashSuffixes s).any (fun s2 => rmatch [] s2) = true ↔ _
  rw [List.any_eq_true]
  constructor
  · rintro ⟨s2, hmem, hmatch⟩
    have : s2 = [] := by
      cases s2 with
      | nil => rfl
      | cons a as => simp [rmatch, List.isEmpty] at hmatch
    subst this
    exact (empty_mem_nonSlashSuffixes s).mp hmem
  · intro h
    exact ⟨[], (empty_mem_nonSlashSuffixes s).mpr h, rfl⟩

/-- `.*` alone accepts every line-terminator-free string. -/
lemma rmatch_single_dstar (s : Str) (h : ∀ c ∈ s, isLineTerm c = false) :
    rmatch [Tok.dstar] s = true := by
  show (nonTermSuffixes s).any (fun s2 => rmatch [] s2) = true
  rw [List.any_eq_true]
  exact ⟨[], empty_mem_nonTermSuffixes s h, rfl⟩

lemma compile_aslash_star : compile "a/*".toList = [Tok.lit 'a', Tok.lit '/', Tok.star] := by
  decide

lemma compile_aslash_dstar : compile "a/**".toList = [Tok.lit 'a', Tok.lit '/', Tok.dstar] := by
  decide

/-- Claim C3, counterexample.  The claim states that every name matches
itself.  It fails: the pattern compiler's internal marker `__DOUBLE_WILDCARD__`
is textual, so the name `__DOUBLE_WILDCARD**__` — whose `**` expands to marker
text that merges with the surrounding characters — compiles to a regex
(`.*DOUBLE_WILDCARD____` anchored) that does not accept the name itself. -/
theorem c3_matcher_counterexample :
    matchesPattern "__DOUBLE_WILDCARD**__".toList "__DOUBLE_WILDCARD**__".toList
      = false := by
  decide

/-- Claim C3, amended.  The pattern matcher shared by policies and grants
satisfies: a bare `*` matches every tool name; every name free of the
internal-marker fragment `WILDCARD` matches itself (a name containing the
compiler's marker text may fail to match itself); `*` matches exactly the runs
of characters not containing the separator `/`; `**` matches any run of
characters — including `/` — that contains no JavaScript line terminator;
other metacharacters such as `.` are literal and patterns are anchored; and in
particular matches("a/b","a/*"), ¬matches("a/b/c","a/*"),
matches("a/b/c","a/**"). -/
theorem c3_matcher_amended :
    (∀ n : Str, matchesPattern n "*".toList = true) ∧
    (∀ n : Str, ¬ ("WILDCARD".toList <:+: n) → matchesPattern n n = true) ∧
    (∀ s : Str, (matchesPattern ("a/".toList ++ s) "a/*".toList = true ↔ '/' ∉ s)) ∧
    (∀ s : Str, (∀ c ∈ s, isLineTerm c = false) →
      matchesPattern ("a/".toList ++ s) "a/**".toList = true) ∧
    matchesPattern "a.b".toList "a.b".toList = true ∧
    matchesPattern "axb".toList "a.b".toList = false ∧
    matchesPattern "a/b".toList "a/*".toList = true ∧
    matchesPattern "a/b/c".toList "a/*".toList = false ∧
    matchesPattern "a/b/c".toList "a/**".toList = true := by
  refine ⟨?_, ?_, ?_, ?_, by decide, by decide, by decide, by decide, by decide⟩
  · intro n
    show (if ("*".toList : Str) = "*".toList then true
      else rmatch (compile "*".toList) n) = true
    rw [if_pos rfl]
  · intro n hn
    by_cases hstar : n = "*".toList
    · subst hstar
      decide
    · show (if n = "*".toList then true else rmatch (compile n) n) = true
      rw [if_neg hstar, compile_no_wildcard n.length n (le_refl _) hn]
      exact rmatch_tokenizePure n.length n (le_refl _)
  · intro s
    show (if ("a/*".toList : Str) = "*".toList then true
      else rmatch (compile "a/*".toList) ("a/".toList ++ s)) = true ↔ _
    rw [if_neg (by decide), compile_aslash_star,
      show ("a/".toList ++ s : Str) = 'a' :: '/' :: s from rfl]
    show (('a' == 'a') && (('/' == '/') && rmatch [Tok.star] s)) = true ↔ _
    simp only [beq_self_eq_true, Bool.true_and]
    exact rmatch_single_star s
  · intro s hs
    show (if ("a/**".toList : Str) = "*".toList then true
      else rmatch (compile "a/**".toList) ("a/".toList ++ s)) = true
    rw [if_neg (by decide), compile_aslash_dstar,
      show ("a/".toList ++ s : Str) = 'a' :: '/' :: s from rfl]
    show (('a' == 'a') && (('/' == '/') && rmatch [Tok.dstar] s)) = true
    simp only [beq_self_eq_true, Bool.true_and]
    exact rmatch_single_dstar s hs

/-- Claim C3, witness: the amended theorem applied at concrete inputs, with
its hypotheses discharged by evaluation. -/
theorem c3_matcher_amended_witness :
    matchesPattern "x/y".toList "x/y".toList = true ∧
    matchesPattern ("a/".toList ++ ['b']) "a/**".toList = true :=
  ⟨c3_matcher_amended.2.1 "x/y".toList (by decide),
   c3_matcher_amended.2.2.2.1 ['b'] (by decide)⟩

/-! ## Policy resolver

Embeds `PolicyRulesDB.resolveDetailed` (`db/policy-rules.ts`) and
`PolicyEngine.checkPolicyDetailed` (`middleware/anonymizer.ts`, PolicyEngine
part).  Dynamic rules are the persisted rules file in stored order; the static
policy map is an association list in configuration (insertion) order, matching
`Object.entries` for the non-numeric keys that tool-name patterns are.  A
`PolicyEngine` constructed without a rules DB behaves exactly like one with an
empty rules list. -/

inductive PolicyAction where
  | allow
  | deny
  | requireApproval
deriving DecidableEq, Repr

/-- A persisted dynamic policy rule (rules file row). -/
structure RuleRow where
  id : Str
  pattern : Str
  action : PolicyAction
  createdAt : Int
deriving DecidableEq, Repr

/-- Result of `PolicyRulesDB.resolveDetailed`. -/
structure ResolvedRule where
  action : PolicyAction
  ruleId : Str
  rulePattern : Str
deriving DecidableEq, Repr

/-- `PolicyRulesDB.resolveDetailed`: exact pattern match first, then the first
rule (in stored order) whose pattern matches. -/
def resolveDetailed (rules : List RuleRow) (toolName : Str) : Option ResolvedRule :=
  match rules.find? (fun r => r.pattern == toolName) with
  | some r => some ⟨r.action, r.id, r.pattern⟩
  | none =>
    match rules.find? (fun r => matchesPattern toolName r.pattern) with
    | some r => some ⟨r.action, r.id, r.pattern⟩
    | none => none

inductive PolicySource where
  | dbRule
  | configExact
  | configPattern
  | defaultConfig
deriving DecidableEq, Repr

/-- The record returned by `checkPolicyDetailed` (the spec calls the sources
dynamic-rule / static-exact / static-pattern / default). -/
structure PolicyDecision where
  action : PolicyAction
  source : PolicySource
  pattern : Option Str
  ruleId : Option Str
deriving DecidableEq, Repr

/-- Exact-keyed lookup in the static policy map (`this.policies[toolName]`;
policy actions are non-empty strings, hence always truthy). -/
def lookupPolicy (policies : List (Str × PolicyAction)) (name : Str) :
    Option PolicyAction :=
  (policies.find? (fun p => p.1 == name)).map (fun p => p.2)

/-- `PolicyEngine.checkPolicyDetailed`: dynamic rules, then static exact, then
static patterns in insertion order, then the default action. -/
def checkPolicyDetailed (rules : List RuleRow) (policies : List (Str × PolicyAction))
    (defaultPolicy : PolicyAction) (toolName : Str) : PolicyDecision :=
  match resolveDetailed rules toolName with
  | some r => ⟨r.action, PolicySource.dbRule, some r.rulePattern, some r.ruleId⟩
  | none =>
    match lookupPolicy policies toolName with
    | some a => ⟨a, PolicySource.configExact, some toolName, none⟩
    | none =>
      match policies.find? (fun p => matchesPattern toolName p.1) with
      | some p => ⟨p.2, PolicySource.configPattern, some p.1, none⟩
      | none => ⟨defaultPolicy, PolicySource.defaultConfig, none, none⟩

/-- Modelled from the claim/spec wording: the four layers as first-hit-wins
alternatives — dynamic exact, dynamic pattern, static exact, static pattern,
finally the configured default. -/
def specResolve (rules : List RuleRow) (policies : List (Str × PolicyAction))
    (defaultPolicy : PolicyAction) (toolName : Str) : PolicyDecision :=
  let dynExact := (rules.find? (fun r => r.pattern == toolName)).map
    (fun r => PolicyDecision.mk r.action PolicySource.dbRule (some r.pattern) (some r.id))
  let dynPat := (rules.find? (fun r => matchesPattern toolName r.pattern)).map
    (fun r => PolicyDecision.mk r.action PolicySource.dbRule (some r.pattern) (some r.id))
  let statExact := (lookupPolicy policies toolName).map
    (fun a => PolicyDecision.mk a PolicySource.configExact (some toolName) none)
  let statPat := (policies.find? (fun p => matchesPattern toolName p.1)).map
    (fun p => PolicyDecision.mk p.2 PolicySource.configPattern (some p.1) none)
  ((((dynExact.orElse (fun _ => dynPat)).orElse (fun _ => statExact)).orElse
    (fun _ => statPat))).getD
    (PolicyDecision.mk defaultPolicy PolicySource.defaultConfig none none)

/-- Claim C1: for every tool name and snapshot of the dynamic-rule store and
static policy configuration, the resolver returns the first hit in the order
dynamic-exact, dynamic-pattern, static-exact, static-pattern (insertion
order), default — and the returned record carries the action, its source, and
when applicable the matching pattern and rule id. -/
theorem c1_resolver_order (rules : List RuleRow)
    (policies : List (Str × PolicyAction)) (defaultPolicy : PolicyAction)
    (toolName : Str) :
    checkPolicyDetailed rules policies defaultPolicy toolName =
      specResolve rules policies defaultPolicy toolName := by
  rw [checkPolicyDetailed, specResolve, resolveDetailed]
  cases h1 : rules.find? (fun r => r.pattern == toolName) with
  | some r => simp [Option.orElse]
  | none =>
    cases h2 : rules.find? (fun r => matchesPattern toolName r.pattern) with
    | some r => simp [Option.orElse]
    | none =>
      cases h3 : lookupPolicy policies toolName with
      | some a => simp [Option.orElse]
      | none =>
        cases h4 : policies.find? (fun p => matchesPattern toolName p.1) with
        | some p => simp [Option.orElse]
        | none => simp [Option.orElse]

/-! ## Grants

Embeds `GrantsDB.hasActiveGrant` (`db/grants.ts`).  Timestamps are integers
(the source stores ISO strings and compares epoch milliseconds; parsed
timestamps of stored grants are finite). -/

structure GrantRow where
  id : Str
  pattern : Str
  createdAt : Int
  expiresAt : Int
deriving DecidableEq, Repr

/-- `GrantsDB.hasActiveGrant`: some stored grant has `expiresAt > now` and a
pattern matching the tool name. -/
def hasActiveGrant (grants : List GrantRow) (now : Int) (toolName : Str) : Bool :=
  grants.any (fun g => decide (now < g.expiresAt) && matchesPattern toolName g.pattern)

/-! ## JSON values and the anonymizer

Embeds `Anonymizer` (`middleware/anonymizer.ts`).  Tool arguments and results
are untyped JSON-like structured data. -/

inductive Json where
  | null
  | bool (b : Bool)
  | num (n : Int)
  | str (s : Str)
  | arr (elems : List Json)
  | obj (fields : List (Str × Json))

/-- A replacement rule from the configuration (`config/types.ts`). -/
structure Replacement where
  fake : Str
  real : Str
  bidirectional : Bool
  caseSensitive : Option Bool
  responseReplacement : Option Str

/-- `replacement.caseSensitive !== false` — default is case-sensitive. -/
def caseSensitiveEff (r : Replacement) : Bool := !(r.caseSensitive == some false)

/-- The fixed redaction token. -/
def redactedToken : Str := "***REDACTED***".toList

/-- Replace each occurrence of a non-empty `src` (leftmost, non-overlapping)
by `tgt`; fuel counts consumed characters, `s.length` always suffices. -/
def replaceAllF (src tgt : Str) : Nat → Str → Str
  | 0, s => s
  | _ + 1, [] => []
  | f + 1, x :: xs =>
    if src.isPrefixOf (x :: xs) then
      tgt ++ replaceAllF src tgt f ((x :: xs).drop src.length)
    else x :: replaceAllF src tgt f xs

/-- `result.split(source).join(target)` in JavaScript.  Splitting on the empty
string yields the list of single characters, so joining interleaves `tgt`
between consecutive characters. -/
def replaceAllJS (src tgt s : Str) : Str :=
  if src.isEmpty then List.intercalate tgt (s.map (fun c => [c]))
  else replaceAllF src tgt s.length s

/-- Case-insensitive character comparison (JavaScript `i` flag, modelled by
lower-casing). -/
def lowerEq (a b : Char) : Bool := a.toLower == b.toLower

def ciIsPrefixOf : Str → Str → Bool
  | [], _ => true
  | _ :: _, [] => false
  | a :: as, b :: bs => lowerEq a b && ciIsPrefixOf as bs

def replaceAllCIF (src tgt : Str) : Nat → Str → Str
  | 0, s => s
  | _ + 1, [] => []
  | f + 1, x :: xs =>
    if ciIsPrefixOf src (x :: xs) then
      tgt ++ replaceAllCIF src tgt f ((x :: xs).drop src.length)
    else x :: replaceAllCIF src tgt f xs

/-- `result.replace(new RegExp(escapeRegExp(source), 'gi'), target)`: global
case-insensitive literal replacement (the escape makes the source literal; the
replacement string is taken literally here — the rules' replacement sides are
opaque configuration literals).  An empty source matches at every boundary. -/
def replaceAllCI (src tgt s : Str) : Str :=
  if src.isEmpty then
    match s with
    | [] => tgt
    | _ => tgt ++ List.intercalate tgt (s.map (fun c => [c])) ++ tgt
  else replaceAllCIF src tgt s.length s

inductive Direction where
  | toReal
  | toFake
deriving DecidableEq, Repr

/-- One iteration of the loop in `Anonymizer.replaceInValue`: pick source and
target by direction (`toFake` on a one-way rule uses
`responseReplacement || '***REDACTED***'`, so an empty string falls back to
the redaction token), then replace case-sensitively or not. -/
def applyRule (dir : Direction) (s : Str) (r : Replacement) : Str :=
  let st : Str × Str :=
    match dir with
    | Direction.toReal => (r.fake, r.real)
    | Direction.toFake =>
      if !r.bidirectional then
        (r.real,
          match r.responseReplacement with
          | some t => if t.isEmpty then redactedToken else t
          | none => redactedToken)
      else (r.real, r.fake)
  if caseSensitiveEff r then replaceAllJS st.1 st.2 s else replaceAllCI st.1 st.2 s

/-- `Anonymizer.replaceInValue`: all rules applied sequentially in
configuration order. -/
def replaceInValue (reps : List Replacement) (dir : Direction) (s : Str) : Str :=
  reps.foldl (fun acc r => applyRule dir acc r) s

mutual

/-- `Anonymizer.deepTraverse`: rewrite string leaves, rewrite both keys and
values of objects, map arrays element-wise, pass other scalars through. -/
def deepTraverse (f : Str → Str) : Json → Json
  | Json.null => Json.null
  | Json.bool b => Json.bool b
  | Json.num n => Json.num n
  | Json.str s => Json.str (f s)
  | Json.arr xs => Json.arr (deepTraverseList f xs)
  | Json.obj kvs => Json.obj (deepTraverseFields f kvs)

def deepTraverseList (f : Str → Str) : List Json → List Json
  | [] => []
  | x :: xs => deepTraverse f x :: deepTraverseList f xs

def deepTraverseFields (f : Str → Str) : List (Str × Json) → List (Str × Json)
  | [] => []
  | kv :: kvs => (f kv.1, deepTraverse f kv.2) :: deepTraverseFields f kvs

end

/-- `Anonymizer.anonymizeRequest` (fake → real). -/
def anonymizeRequest (reps : List Replacement) (data : Json) : Json :=
  deepTraverse (replaceInValue reps Direction.toReal) data

/-- `Anonymizer.deanonymizeResponse` (real → fake). -/
def deanonymizeResponse (reps : List Replacement) (data : Json) : Json :=
  deepTraverse (replaceInValue reps Direction.toFake) data

lemma deepTraverseList_eq_map (f : Str → Str) :
    ∀ xs : List Json, deepTraverseList f xs = xs.map (deepTraverse f) := by
  intro xs
  induction xs with
  | nil => rfl
  | cons x xs ih => simp [deepTraverseList, ih]

lemma deepTraverseFields_eq_map (f : Str → Str) :
    ∀ kvs : List (Str × Json),
      deepTraverseFields f kvs = kvs.map (fun kv => (f kv.1, deepTraverse f kv.2)) := by
  intro kvs
  induction kvs with
  | nil => rfl
  | cons kv kvs ih => simp [deepTraverseFields, ih]

/-- Claim C7, counterexample.  The claim states that a one-way rule that
explicitly sets `responseReplacement` to the empty string substitutes the
empty string (`??` semantics).  It fails: the source uses JavaScript `||`, so
an empty `responseReplacement` falls back to the redaction token. -/
theorem c7_outbound_counterexample :
    deanonymizeResponse
        [⟨"FAKE_KEY".toList, "sk_secret".toList, false, none, some []⟩]
        (Json.str "sk_secret".toList) = Json.str "***REDACTED***".toList ∧
      Json.str "***REDACTED***".toList ≠ Json.str ([] : Str) := by
  constructor
  · rfl
  · intro h
    injection h with h2
    exact absurd h2 (by decide)

/-- Modelled from the amended claim wording: the outbound substitution target
is the fake side for a bidirectional rule; for a one-way rule it is the
configured `responseReplacement` when that is a non-empty string, and the
redaction token otherwise (also when it is explicitly the empty string). -/
def specOutboundTarget (r : Replacement) : Str :=
  if r.bidirectional then r.fake
  else
    match r.responseReplacement with
    | some t => if t.isEmpty then redactedToken else t
    | none => redactedToken

/-- Claim C7, amended.  Outbound anonymization substitutes, for every
case-sensitive rule, each occurrence of `real` with the fake side when
bidirectional and with `responseReplacement`-if-non-empty-else-the-redaction-
token when one-way; rules apply sequentially in configuration order; and the
traversal rewrites string leaves, object keys and values, and array elements
while passing other scalars through unchanged. -/
theorem c7_outbound_amended :
    (∀ (r : Replacement) (s : Str), caseSensitiveEff r = true →
      applyRule Direction.toFake s r = replaceAllJS r.real (specOutboundTarget r) s) ∧
    (∀ (reps : List Replacement) (r : Replacement) (dir : Direction) (s : Str),
      replaceInValue (r :: reps) dir s = replaceInValue reps dir (applyRule dir s r)) ∧
    (∀ (reps : List Replacement) (s : Str),
      deanonymizeResponse reps (Json.str s) =
        Json.str (replaceInValue reps Direction.toFake s)) ∧
    (∀ (reps : List Replacement) (xs : List Json),
      deanonymizeResponse reps (Json.arr xs) =
        Json.arr (xs.map (deanonymizeResponse reps))) ∧
    (∀ (reps : List Replacement) (kvs : List (Str × Json)),
      deanonymizeResponse reps (Json.obj kvs) =
        Json.obj (kvs.map (fun kv =>
          (replaceInValue reps Direction.toFake kv.1, deanonymizeResponse reps kv.2)))) ∧
    (∀ (reps : List Replacement) (n : Int),
      deanonymizeResponse reps (Json.num n) = Json.num n) ∧
    (∀ (reps : List Replacement) (b : Bool),
      deanonymizeResponse reps (Json.bool b) = Json.bool b) ∧
    (∀ reps : List Replacement, deanonymizeResponse reps Json.null = Json.null) := by
  refine ⟨?_, ?_, ?_, ?_, ?_, ?_, ?_, ?_⟩
  · intro r s hcs
    cases hb : r.bidirectional with
    | true => simp [applyRule, specOutboundTarget, hb, hcs]
    | false => simp [applyRule, specOutboundTarget, hb, hcs]
  · intro reps r dir s
    rfl
  · intro reps s
    rfl
  · intro reps xs
    show Json.arr (deepTraverseList _ xs) = _
    rw [deepTraverseList_eq_map]
    rfl
  · intro reps kvs
    show Json.obj (deepTraverseFields _ kvs) = _
    rw [deepTraverseFields_eq_map]
    rfl
  · intro reps n
    rfl
  · intro reps b
    rfl
  · intro reps
    rfl

/-- Claim C7, witness: the amended theorem applied at a concrete one-way rule
whose `responseReplacement` is absent, with the case-sensitivity hypothesis
discharged by evaluation. -/
theorem c7_outbound_amended_witness :
    applyRule Direction.toFake "ab".toList
        ⟨"f".toList, "a".toList, true, none, none⟩ =
      replaceAllJS "a".toList
        (specOutboundTarget ⟨"f".toList, "a".toList, true, none, none⟩)
        "ab".toList :=
  c7_outbound_amended.1 ⟨"f".toList, "a".toList, true, none, none⟩ "ab".toList
    (by decide)

/-! ## Task store

Embeds `TasksDB` (`db/tasks.ts`).  Each operation is a read-modify-write of
the tasks file; the in-file list is modelled directly (newest first, as
`unshift` keeps it).  Timestamps are integers standing for the ISO strings the
source stores. -/

inductive TaskStatus where
  | pendingApproval
  | approvedQueued
  | executing
  | completed
  | denied
  | error
deriving DecidableEq, Repr

structure TaskRow where
  id : Str
  toolName : Str
  args : Json
  originalArgs : Json
  status : TaskStatus
  result : Option Json
  error : Option Str
  policyAction : PolicyAction
  telegramMessageId : Option Int
  createdAt : Int
  approvedAt : Option Int
  executedAt : Option Int
  checkedAt : Option Int

/-- Update the first row satisfying `p` (the source's
`data.tasks.find(...)` followed by in-place mutation); no match leaves the
list unchanged, exactly as the source's silent `if (!row) return`. -/
def updateFirst {α : Type} (p : α → Bool) (f : α → α) : List α → List α
  | [] => []
  | x :: xs => if p x then f x :: xs else x :: updateFirst p f xs

/-- The row built by `TasksDB.create`. -/
def newTaskRow (id toolName : Str) (args originalArgs : Json)
    (policyAction : PolicyAction) (now : Int) : TaskRow :=
  { id := id, toolName := toolName, args := args, originalArgs := originalArgs,
    status := TaskStatus.pendingApproval, result := none, error := none,
    policyAction := policyAction, telegramMessageId := none, createdAt := now,
    approvedAt := none, executedAt := none, checkedAt := none }

/-- `TasksDB.create`: unshift a fresh `pending-approval` row. -/
def tasksCreate (tasks : List TaskRow) (id toolName : Str)
    (args originalArgs : Json) (policyAction : PolicyAction) (now : Int) :
    List TaskRow :=
  newTaskRow id toolName args originalArgs policyAction now :: tasks

/-- `TasksDB.get`. -/
def tasksGet (tasks : List TaskRow) (id : Str) : Option TaskRow :=
  tasks.find? (fun t => t.id == id)

/-- `TasksDB.updateStatus`: sets the status unconditionally; stamps
`approvedAt` on entry to approved-queued and `executedAt` on entry to
executing; a missing id is silently ignored. -/
def updateStatus (tasks : List TaskRow) (id : Str) (status : TaskStatus)
    (now : Int) : List TaskRow :=
  updateFirst (fun t => t.id == id)
    (fun t =>
      { t with
        status := status,
        approvedAt := if status = TaskStatus.approvedQueued then some now else t.approvedAt,
        executedAt := if status = TaskStatus.executing then some now else t.executedAt })
    tasks

/-- `TasksDB.setResult`: unconditionally sets status completed, the result and
`executedAt`; a missing id is silently ignored. -/
def setResult (tasks : List TaskRow) (id : Str) (result : Json) (now : Int) :
    List TaskRow :=
  updateFirst (fun t => t.id == id)
    (fun t =>
      { t with status := TaskStatus.completed, result := some result,
               executedAt := some now })
    tasks

/-- `TasksDB.setError`: unconditionally sets status error, the message and
`executedAt`; a missing id is silently ignored. -/
def setError (tasks : List TaskRow) (id : Str) (err : Str) (now : Int) :
    List TaskRow :=
  updateFirst (fun t => t.id == id)
    (fun t =>
      { t with status := TaskStatus.error, error := some err,
               executedAt := some now })
    tasks

/-- `TasksDB.markChecked`. -/
def markChecked (tasks : List TaskRow) (id : Str) (now : Int) : List TaskRow :=
  updateFirst (fun t => t.id == id) (fun t => { t with checkedAt := some now }) tasks

/-- `TasksDB.setTelegramMessageId`. -/
def setTelegramMessageId (tasks : List TaskRow) (id : Str) (messageId : Int) :
    List TaskRow :=
  updateFirst (fun t => t.id == id)
    (fun t => { t with telegramMessageId := some messageId }) tasks

/-- A concrete task already in the terminal status `denied`. -/
def deniedTask : TaskRow :=
  { id := "t1".toList, toolName := "github/create_pull_request".toList,
    args := Json.null, originalArgs := Json.null, status := TaskStatus.denied,
    result := none, error := none, policyAction := PolicyAction.requireApproval,
    telegramMessageId := none, createdAt := 0, approvedAt := none,
    executedAt := none, checkedAt := none }

/-- Claim C2, evaluation at the failing input.  The spec's state machine
forbids any transition out of the terminal state `denied` and requires
disallowed transitions to fail loudly, but `TasksDB.setResult` on a task in
status `denied` silently rewrites it to `completed` with a result — no error
is raised and the model's type has no failure outcome at all.  Likewise
`setError` leaves a terminal `completed` task in `error`. -/
theorem c2_fsm_not_enforced :
    setResult [deniedTask] "t1".toList (Json.str "out".toList) 5 =
      [{ deniedTask with
          status := TaskStatus.completed,
          result := some (Json.str "out".toList),
          executedAt := some 5 }] ∧
    setError [{ deniedTask with status := TaskStatus.completed }]
        "t1".toList "boom".toList 6 =
      [{ deniedTask with
          status := TaskStatus.error,
          error := some "boom".toList,
          executedAt := some 6 }] := by
  constructor
  · rfl
  · rfl

/-! ## File store

Embeds `readJsonFile` (`storage/file-store.ts`): the catch-all returns the
fallback shape on a missing file, an unreadable file, and unparsable JSON
alike.  A read-modify-write such as `TasksDB.create` then atomically writes a
document built from the fallback. -/

inductive FileContent (α : Type) where
  | missing
  | unreadable
  | unparsable (raw : Str)
  | stored (doc : α)

/-- `readJsonFile(path, fallback)`: the stored document, or the fallback on
any read or parse failure. -/
def readJsonFile {α : Type} (file : FileContent α) (fallback : α) : α :=
  match file with
  | FileContent.stored doc => doc
  | _ => fallback

/-- The tasks collection document (`{ tasks: [...] }`). -/
structure TasksDoc where
  tasks : List TaskRow

/-- `TasksDB.create` at file level: read with the empty fallback shape,
unshift the new row, atomically replace the file. -/
def tasksCreateFile (file : FileContent TasksDoc) (id toolName : Str)
    (args originalArgs : Json) (policyAction : PolicyAction) (now : Int) :
    FileContent TasksDoc :=
  let doc := readJsonFile file ⟨[]⟩
  FileContent.stored
    ⟨tasksCreate doc.tasks id toolName args originalArgs policyAction now⟩

/-- Claim C10: `readJsonFile` returns the documented empty fallback not only
when the file is missing but on any read or JSON-parse failure, so a corrupted
collection file is silently treated as empty, and the next read-modify-write
(`TasksDB.create`) atomically replaces the corrupted contents with a document
built from the empty shape — the previously persisted entries are lost with no
error surfacing. -/
theorem c10_corrupted_read_fallback :
    (∀ (α : Type) (raw : Str) (fallback : α),
      readJsonFile (FileContent.unparsable raw) fallback = fallback) ∧
    (∀ (α : Type) (fallback : α),
      readJsonFile (FileContent.unreadable : FileContent α) fallback = fallback) ∧
    (∀ (α : Type) (fallback : α),
      readJsonFile (FileContent.missing : FileContent α) fallback = fallback) ∧
    (∀ (raw id toolName : Str) (args originalArgs : Json)
        (policyAction : PolicyAction) (now : Int),
      tasksCreateFile (FileContent.unparsable raw) id toolName args originalArgs
          policyAction now =
        FileContent.stored
          ⟨[newTaskRow id toolName args originalArgs policyAction now]⟩) := by
  exact ⟨fun _ _ _ => rfl, fun _ _ => rfl, fun _ _ => rfl,
    fun _ _ _ _ _ _ _ => rfl⟩

/-! ## The tool-call pipeline

Embeds `MCPHandler.executeToolPipeline` (`gateway/mcp-handler.ts`) together
with `ApprovalGate.requestApproval` (the async gate).  External effects are
described by an environment: the backend dispatch is a function returning
either a result or a thrown error message, and the Telegram send either
succeeds or fails.  `paired` stands for a configured bot with a paired admin
chat (`enqueueExecutionNotice` drops notices otherwise, and an absent bot is
equivalent). -/

/-- One record given to `auditDB.log`. -/
structure AuditEntry where
  toolName : Str
  args : Json
  result : Option Json
  policyAction : PolicyAction
  approvalStatus : Option Str
  error : Option Str

inductive NoticeStatus where
  | ok
  | blocked
  | error
deriving DecidableEq, Repr

/-- One execution notice handed to `enqueueExecutionNotice`. -/
structure Notice where
  status : NoticeStatus
  toolName : Str
  usedGrant : Bool
  usedApproval : Bool
  error : Option Str

structure PipelineEnv where
  replacements : List Replacement
  dynRules : List RuleRow
  policies : List (Str × PolicyAction)
  defaultPolicy : PolicyAction
  grants : List GrantRow
  now : Int
  backend : Str → Json → Except Str Json
  sendOk : Bool
  paired : Bool
  newTaskId : Str
  msgId : Int

inductive ToolReply where
  | pending (taskId : Str) (toolName : Str)
  | result (v : Json)

/-- A pipeline either throws (surfaced by `handleRequest` as a JSON-RPC
error) or returns a reply value. -/
inductive PipelineResult where
  | raised (msg : Str)
  | replied (r : ToolReply)

structure PipelineOutcome where
  result : PipelineResult
  dispatches : List (Str × Json)
  audits : List AuditEntry
  notices : List Notice
  tasks : List TaskRow

def noticeIf (paired : Bool) (n : Notice) : List Notice :=
  if paired then [n] else []

/-- `ApprovalGate.requestApproval` (async gate): create the task, try to send
the approval request; on success record the Telegram message id, on failure
set the task to error — and return the task id either way. -/
def requestApproval (env : PipelineEnv) (toolName : Str) (realArgs originalArgs : Json)
    (policyAction : PolicyAction) (tasks0 : List TaskRow) : Str × List TaskRow :=
  let tasks1 := tasksCreate tasks0 env.newTaskId toolName realArgs originalArgs
    policyAction env.now
  let tasks2 :=
    if env.sendOk then setTelegramMessageId tasks1 env.newTaskId env.msgId
    else setError tasks1 env.newTaskId
      "Failed to send Telegram approval request".toList env.now
  (env.newTaskId, tasks2)

def denyMsg (name : Str) : Str :=
  "Tool ".toList ++ name ++ " is denied by policy".toList

/-- `MCPHandler.executeToolPipeline`: anonymize inbound, resolve policy, check
grants; deny throws (caught into one audit record and one blocked notice);
require-approval without a grant parks a task and replies with the pending
envelope; otherwise dispatch, deanonymize, audit and notify, with a dispatch
failure caught into one audit record and one error notice before re-raising. -/
def executeToolPipeline (env : PipelineEnv) (name : Str) (args : Json)
    (tasks0 : List TaskRow) : PipelineOutcome :=
  let realArgs := anonymizeRequest env.replacements args
  let policy := checkPolicyDetailed env.dynRules env.policies env.defaultPolicy name
  let hasGrant := hasActiveGrant env.grants env.now name
  if policy.action = PolicyAction.deny then
    { result := PipelineResult.raised (denyMsg name),
      dispatches := [],
      audits := [⟨name, args, none, policy.action, none, some (denyMsg name)⟩],
      notices := noticeIf env.paired
        ⟨NoticeStatus.blocked, name, hasGrant, false, some (denyMsg name)⟩,
      tasks := tasks0 }
  else if policy.action = PolicyAction.requireApproval ∧ hasGrant = false then
    let parked := requestApproval env name realArgs args policy.action tasks0
    { result := PipelineResult.replied (ToolReply.pending parked.1 name),
      dispatches := [],
      audits := [],
      notices := [],
      tasks := parked.2 }
  else
    match env.backend name realArgs with
    | Except.ok res =>
      let fakeResult := deanonymizeResponse env.replacements res
      { result := PipelineResult.replied (ToolReply.result fakeResult),
        dispatches := [(name, realArgs)],
        audits := [⟨name, args, some fakeResult, policy.action, none, none⟩],
        notices := noticeIf env.paired
          ⟨NoticeStatus.ok, name, hasGrant, false, none⟩,
        tasks := tasks0 }
    | Except.error e =>
      { result := PipelineResult.raised e,
        dispatches := [(name, realArgs)],
        audits := [⟨name, args, none, policy.action, none, some e⟩],
        notices := noticeIf env.paired
          ⟨NoticeStatus.error, name, hasGrant, false, some e⟩,
        tasks := tasks0 }

/-- `MCPHandler.handleRequest` maps a thrown pipeline error to a JSON-RPC
error object with code −32603. -/
structure JsonRpcError where
  code : Int
  message : Str

def rpcErrorOf : PipelineResult → Option JsonRpcError
  | PipelineResult.raised msg => some ⟨-32603, msg⟩
  | PipelineResult.replied _ => none

lemma hasActiveGrant_of_mem {grants : List GrantRow} {now : Int} {name : Str}
    (h : ∃ g ∈ grants, matchesPattern name g.pattern = true ∧ now < g.expiresAt) :
    hasActiveGrant grants now name = true := by
  obtain ⟨g, hmem, hmatch, hexp⟩ := h
  rw [hasActiveGrant, List.any_eq_true]
  exact ⟨g, hmem, by rw [Bool.and_eq_true, hmatch]; exact ⟨by simpa using hexp, rfl⟩⟩

/-- Claim C5: when the resolved policy action is deny, the pipeline performs
no backend dispatch and raises an error whose message contains "denied by
policy" (surfaced as a JSON-RPC error with code −32603); exactly one audit
record is written, with its error field set, and — with a paired bot — exactly
one admin notification with status blocked is enqueued; the task store is
untouched. -/
theorem c5_deny_path (env : PipelineEnv) (name : Str) (args : Json)
    (tasks0 : List TaskRow)
    (hdeny : (checkPolicyDetailed env.dynRules env.policies env.defaultPolicy
      name).action = PolicyAction.deny)
    (hpaired : env.paired = true) :
    (executeToolPipeline env name args tasks0).dispatches = [] ∧
    (executeToolPipeline env name args tasks0).result =
      PipelineResult.raised (denyMsg name) ∧
    ("denied by policy".toList <:+: denyMsg name) ∧
    rpcErrorOf (executeToolPipeline env name args tasks0).result =
      some ⟨-32603, denyMsg name⟩ ∧
    (executeToolPipeline env name args tasks0).audits =
      [⟨name, args, none, PolicyAction.deny, none, some (denyMsg name)⟩] ∧
    (executeToolPipeline env name args tasks0).notices =
      [⟨NoticeStatus.blocked, name, hasActiveGrant env.grants env.now name, false,
        some (denyMsg name)⟩] ∧
    (executeToolPipeline env name args tasks0).tasks = tasks0 := by
  have hout : executeToolPipeline env name args tasks0 =
      { result := PipelineResult.raised (denyMsg name),
        dispatches := [],
        audits := [⟨name, args, none, PolicyAction.deny, none, some (denyMsg name)⟩],
        notices := [⟨NoticeStatus.blocked, name,
          hasActiveGrant env.grants env.now name, false, some (denyMsg name)⟩],
        tasks := tasks0 } := by
    simp [executeToolPipeline, hdeny, noticeIf, hpaired]
  have hinfix : "denied by policy".toList <:+: denyMsg name := by
    refine ⟨"Tool ".toList ++ name ++ " is ".toList, [], ?_⟩
    rw [denyMsg, List.append_nil, List.append_assoc, List.append_assoc,
      show (" is ".toList ++ "denied by policy".toList : Str) =
        " is denied by policy".toList from by decide, List.append_assoc]
  refine ⟨by rw [hout], by rw [hout], hinfix, by rw [hout]; rfl, by rw [hout],
    by rw [hout], by rw [hout]⟩

/-- A concrete environment for the witnesses: static policies deny
`filesystem/delete_file` and require approval for
`github/create_pull_request`; the backend echoes a fixed reply. -/
def baseEnv : PipelineEnv :=
  { replacements := [],
    dynRules := [],
    policies := [("filesystem/delete_file".toList, PolicyAction.deny),
                 ("github/create_pull_request".toList, PolicyAction.requireApproval)],
    defaultPolicy := PolicyAction.allow,
    grants := [],
    now := 50,
    backend := fun _ _ => Except.ok (Json.str "ok".toList),
    sendOk := true,
    paired := true,
    newTaskId := "T1".toList,
    msgId := 7 }

/-- Claim C5, witness: the deny-path theorem at a concrete call, hypotheses
discharged by evaluation. -/
theorem c5_deny_path_witness :
    (executeToolPipeline baseEnv "filesystem/delete_file".toList Json.null
      []).dispatches = [] ∧
    ("denied by policy".toList <:+: denyMsg "filesystem/delete_file".toList) :=
  ⟨(c5_deny_path baseEnv "filesystem/delete_file".toList Json.null [] (by decide)
      rfl).1,
   (c5_deny_path baseEnv "filesystem/delete_file".toList Json.null [] (by decide)
      rfl).2.2.1⟩

/-- Claim C6: when the resolved policy action is require-approval but some
stored grant matches the tool name and expires strictly later than now, no
task is created — the call dispatches synchronously with the anonymized
arguments and returns the deanonymized backend result, i.e. the grant makes
require-approval behave as allow. -/
theorem c6_grant_short_circuit (env : PipelineEnv) (name : Str) (args : Json)
    (tasks0 : List TaskRow) (res : Json)
    (hreq : (checkPolicyDetailed env.dynRules env.policies env.defaultPolicy
      name).action = PolicyAction.requireApproval)
    (hgrant : ∃ g ∈ env.grants,
      matchesPattern name g.pattern = true ∧ env.now < g.expiresAt)
    (hbackend : env.backend name (anonymizeRequest env.replacements args) =
      Except.ok res) :
    (executeToolPipeline env name args tasks0).tasks = tasks0 ∧
    (executeToolPipeline env name args tasks0).dispatches =
      [(name, anonymizeRequest env.replacements args)] ∧
    (executeToolPipeline env name args tasks0).result =
      PipelineResult.replied (ToolReply.result
        (deanonymizeResponse env.replacements res)) := by
  have hga := hasActiveGrant_of_mem hgrant
  have hout : executeToolPipeline env name args tasks0 =
      { result := PipelineResult.replied (ToolReply.result
          (deanonymizeResponse env.replacements res)),
        dispatches := [(name, anonymizeRequest env.replacements args)],
        audits := [⟨name, args, some (deanonymizeResponse env.replacements res),
          PolicyAction.requireApproval, none, none⟩],
        notices := noticeIf env.paired
          ⟨NoticeStatus.ok, name, true, false, none⟩,
        tasks := tasks0 } := by
    simp [executeToolPipeline, hreq, hga, hbackend]
  exact ⟨by rw [hout], by rw [hout], by rw [hout]⟩

def grantEnv : PipelineEnv :=
  { baseEnv with grants := [⟨"g1".toList, "github/*".toList, 0, 100⟩] }

/-- Claim C6, witness: the grant-short-circuit theorem at a concrete call with
an active grant, hypotheses discharged by evaluation. -/
theorem c6_grant_short_circuit_witness :
    (executeToolPipeline grantEnv "github/create_pull_request".toList Json.null
      []).tasks = [] ∧
    (executeToolPipeline grantEnv "github/create_pull_request".toList Json.null
      []).result = PipelineResult.replied (ToolReply.result
        (deanonymizeResponse [] (Json.str "ok".toList))) :=
  ⟨(c6_grant_short_circuit grantEnv "github/create_pull_request".toList Json.null
      [] (Json.str "ok".toList) (by decide) (by decide) rfl).1,
   (c6_grant_short_circuit grantEnv "github/create_pull_request".toList Json.null
      [] (Json.str "ok".toList) (by decide) (by decide) rfl).2.2⟩

/-- Claim C4: when a call is parked for approval (require-approval, no active
grant) and the approval-channel send fails, the task is created and then moved
to status error with the fixed failure message, while the caller still
receives the structured pending-approval reply carrying the task id — nothing
is raised as a JSON-RPC error and no dispatch happens. -/
theorem c4_send_failure (env : PipelineEnv) (name : Str) (args : Json)
    (tasks0 : List TaskRow)
    (hreq : (checkPolicyDetailed env.dynRules env.policies env.defaultPolicy
      name).action = PolicyAction.requireApproval)
    (hnogrant : hasActiveGrant env.grants env.now name = false)
    (hsend : env.sendOk = false) :
    (executeToolPipeline env name args tasks0).result =
      PipelineResult.replied (ToolReply.pending env.newTaskId name) ∧
    rpcErrorOf (executeToolPipeline env name args tasks0).result = none ∧
    (executeToolPipeline env name args tasks0).dispatches = [] ∧
    (executeToolPipeline env name args tasks0).tasks =
      { newTaskRow env.newTaskId name (anonymizeRequest env.replacements args)
          args PolicyAction.requireApproval env.now with
          status := TaskStatus.error,
          error := some "Failed to send Telegram approval request".toList,
          executedAt := some env.now } :: tasks0 := by
  have hout : executeToolPipeline env name args tasks0 =
      { result := PipelineResult.replied (ToolReply.pending env.newTaskId name),
        dispatches := [],
        audits := [],
        notices := [],
        tasks :=
          { newTaskRow env.newTaskId name (anonymizeRequest env.replacements args)
              args PolicyAction.requireApproval env.now with
              status := TaskStatus.error,
              error := some "Failed to send Telegram approval request".toList,
              executedAt := some env.now } :: tasks0 } := by
    simp [executeToolPipeline, hreq, hnogrant, requestApproval, hsend,
      tasksCreate, setError, updateFirst, newTaskRow]
  exact ⟨by rw [hout], by rw [hout]; rfl, by rw [hout], by rw [hout]⟩

def sendFailEnv : PipelineEnv := { baseEnv with sendOk := false }

/-- Claim C4, witness: the send-failure theorem at a concrete call, hypotheses
discharged by evaluation. -/
theorem c4_send_failure_witness :
    (executeToolPipeline sendFailEnv "github/create_pull_request".toList
      Json.null []).result =
      PipelineResult.replied (ToolReply.pending "T1".toList
        "github/create_pull_request".toList) ∧
    rpcErrorOf (executeToolPipeline sendFailEnv
      "github/create_pull_request".toList Json.null []).result = none :=
  ⟨(c4_send_failure sendFailEnv "github/create_pull_request".toList Json.null []
      (by decide) (by decide) rfl).1,
   (c4_send_failure sendFailEnv "github/create_pull_request".toList Json.null []
      (by decide) (by decide) rfl).2.1⟩

/-! ## portero/check_task

Embeds `MCPHandler.handleCheckTask` (`gateway/mcp-handler.ts`). -/

/-- JavaScript truthiness of a JSON value (`task.result` in
`task.status === 'completed' && task.result`). -/
def jsTruthy : Json → Bool
  | Json.null => false
  | Json.bool b => b
  | Json.num n => !(n == 0)
  | Json.str s => !s.isEmpty
  | Json.arr _ => true
  | Json.obj _ => true

def truthyResult : Option Json → Bool
  | none => false
  | some v => jsTruthy v

/-- The `message` field of the status envelope, by status
(`${task.error}` with an absent error prints "undefined"). -/
def statusMessage (status : TaskStatus) (error : Option Str) : Option Str :=
  match status with
  | TaskStatus.pendingApproval =>
    some "Waiting for admin approval via Telegram. Call portero/check_task again later.".toList
  | TaskStatus.approvedQueued =>
    some "Task is being executed. Call portero/check_task again shortly.".toList
  | TaskStatus.executing =>
    some "Task is being executed. Call portero/check_task again shortly.".toList
  | TaskStatus.denied => some "Task was denied by admin.".toList
  | TaskStatus.error =>
    some ("Task failed: ".toList ++ error.getD "undefined".toList)
  | TaskStatus.completed => none

/-- `if (task.error) info.error = task.error` — an empty string is falsy and
is omitted from the envelope. -/
def displayedError : Option Str → Option Str
  | some e => if e.isEmpty then none else some e
  | none => none

inductive CheckReply where
  | notFound (taskId : Str)
  | raw (v : Json)
  | envelope (taskId : Str) (status : TaskStatus) (toolName : Str)
      (createdAt : Int) (approvedAt executedAt : Option Int)
      (error : Option Str) (message : Option Str)

/-- `MCPHandler.handleCheckTask`: a structured not-found reply for an unknown
id; otherwise record `checkedAt`, then return the stored result verbatim when
the task is completed with a truthy result, else a status envelope. -/
def handleCheckTask (tasks : List TaskRow) (taskId : Str) (now : Int) :
    CheckReply × List TaskRow :=
  match tasksGet tasks taskId with
  | none => (CheckReply.notFound taskId, tasks)
  | some t =>
    let tasks2 := markChecked tasks taskId now
    if t.status = TaskStatus.completed ∧ truthyResult t.result = true then
      (CheckReply.raw (t.result.getD Json.null), tasks2)
    else
      (CheckReply.envelope t.id t.status t.toolName t.createdAt t.approvedAt
        t.executedAt (displayedError t.error) (statusMessage t.status t.error),
       tasks2)

/-- A completed task whose stored result is the (falsy) JSON value `false`. -/
def completedFalsyTask : TaskRow :=
  { id := "t2".toList, toolName := "x/y".toList, args := Json.null,
    originalArgs := Json.null, status := TaskStatus.completed,
    result := some (Json.bool false), error := none,
    policyAction := PolicyAction.allow, telegramMessageId := none,
    createdAt := 0, approvedAt := none, executedAt := none, checkedAt := none }

/-- Claim C8, counterexample.  The claim states a completed task's stored
result is returned verbatim, deciding by status alone.  It fails: the source
tests `task.status === 'completed' && task.result`, so a completed task whose
stored result is falsy (here the JSON value `false`) gets the status envelope
instead of the stored result. -/
theorem c8_check_task_counterexample :
    (handleCheckTask [completedFalsyTask] "t2".toList 7).1 =
      CheckReply.envelope "t2".toList TaskStatus.completed "x/y".toList 0 none
        none none none ∧
    (handleCheckTask [completedFalsyTask] "t2".toList 7).1 ≠
      CheckReply.raw (Json.bool false) := by
  constructor
  · rfl
  · intro h
    rw [show (handleCheckTask [completedFalsyTask] "t2".toList 7).1 =
      CheckReply.envelope "t2".toList TaskStatus.completed "x/y".toList 0 none
        none none none from rfl] at h
    exact CheckReply.noConfusion h

/-- Claim C8, amended.  For an existing task id, `check_task` returns the
stored result verbatim when the task is completed AND the stored result is a
truthy value; otherwise (including a completed task with a falsy or absent
result) a status envelope carrying the task id, status, tool name and
timestamps; in both found cases `checkedAt` is recorded; a non-existent id
yields a structured not-found reply, not an error. -/
theorem c8_check_task_amended :
    (∀ (tasks : List TaskRow) (taskId : Str) (now : Int),
      tasksGet tasks taskId = none →
      handleCheckTask tasks taskId now = (CheckReply.notFound taskId, tasks)) ∧
    (∀ (tasks : List TaskRow) (taskId : Str) (now : Int) (t : TaskRow) (v : Json),
      tasksGet tasks taskId = some t →
      t.status = TaskStatus.completed → t.result = some v → jsTruthy v = true →
      handleCheckTask tasks taskId now =
        (CheckReply.raw v, markChecked tasks taskId now)) ∧
    (∀ (tasks : List TaskRow) (taskId : Str) (now : Int) (t : TaskRow),
      tasksGet tasks taskId = some t →
      ¬ (t.status = TaskStatus.completed ∧ truthyResult t.result = true) →
      handleCheckTask tasks taskId now =
        (CheckReply.envelope t.id t.status t.toolName t.createdAt t.approvedAt
          t.executedAt (displayedError t.error) (statusMessage t.status t.error),
         markChecked tasks taskId now)) := by
  refine ⟨?_, ?_, ?_⟩
  · intro tasks taskId now hfind
    rw [handleCheckTask, hfind]
  · intro tasks taskId now t v hfind hstatus hres htruthy
    rw [handleCheckTask, hfind]
    have hcond : t.status = TaskStatus.completed ∧ truthyResult t.result = true := by
      refine ⟨hstatus, ?_⟩
      rw [hres]
      exact htruthy
    show (if t.status = TaskStatus.completed ∧ truthyResult t.result = true then
        (CheckReply.raw (t.result.getD Json.null), markChecked tasks taskId now)
      else
        (CheckReply.envelope t.id t.status t.toolName t.createdAt t.approvedAt
          t.executedAt (displayedError t.error) (statusMessage t.status t.error),
         markChecked tasks taskId now)) = (CheckReply.raw v, markChecked tasks taskId now)
    rw [if_pos hcond, hres]
    rfl
  · intro tasks taskId now t hfind hcond
    rw [handleCheckTask, hfind]
    show (if t.status = TaskStatus.completed ∧ truthyResult t.result = true then
        (CheckReply.raw (t.result.getD Json.null), markChecked tasks taskId now)
      else
        (CheckReply.envelope t.id t.status t.toolName t.createdAt t.approvedAt
          t.executedAt (displayedError t.error) (statusMessage t.status t.error),
         markChecked tasks taskId now)) = _
    rw [if_neg hcond]

/-- Claim C8, witness: the amended theorem at concrete inputs — an unknown id
on an empty store, and a completed task with a truthy stored result. -/
theorem c8_check_task_amended_witness :
    handleCheckTask [] "zz".toList 3 = (CheckReply.notFound "zz".toList, []) ∧
    handleCheckTask
        [{ completedFalsyTask with result := some (Json.str "out".toList) }]
        "t2".toList 9 =
      (CheckReply.raw (Json.str "out".toList),
       markChecked
        [{ completedFalsyTask with result := some (Json.str "out".toList) }]
        "t2".toList 9) :=
  ⟨c8_check_task_amended.1 [] "zz".toList 3 rfl,
   c8_check_task_amended.2.1
     [{ completedFalsyTask with result := some (Json.str "out".toList) }]
     "t2".toList 9 _ (Json.str "out".toList) rfl rfl rfl (by decide)⟩

/-! ## Admin pairing

Embeds the `/pair` command handler and `isAdmin` of the Telegram bot
(`telegram/bot.ts`, the task-based version).  The admin chat id is a string,
empty when unpaired; a successful pair also persists the id through the admin
store. -/

structure BotState where
  adminChatId : Str
deriving DecidableEq, Repr

inductive PairReply where
  | disabled
  | usage
  | invalidCode
  | noChatId
  | paired
deriving DecidableEq, Repr

/-- The `/pair <code>` handler: refuse when no pairing secret is configured,
when no code was given, when the code mismatches, or when the chat id is
unreadable; otherwise set the admin chat id — unconditionally, whether or not
a pairing already happened. -/
def pairCommand (pairingCode : Str) (st : BotState) (chatId : Option Str)
    (code : Str) : BotState × PairReply :=
  if pairingCode.isEmpty then (st, PairReply.disabled)
  else if code.isEmpty then (st, PairReply.usage)
  else if ¬ (code = pairingCode) then (st, PairReply.invalidCode)
  else
    match chatId with
    | none => (st, PairReply.noChatId)
    | some c =>
      if c.isEmpty then (st, PairReply.noChatId)
      else (⟨c⟩, PairReply.paired)

/-- `isAdmin`: false while unpaired; otherwise the sender's chat id must equal
the paired admin chat id. -/
def isAdmin (st : BotState) (chatId : Option Str) : Bool :=
  if st.adminChatId.isEmpty then false
  else
    match chatId with
    | some c => c == st.adminChatId
    | none => false

/-- Claim C9, counterexample.  The claim states that after a successful pair
no subsequent pair command — even with the correct secret — changes the paired
admin.  It fails: a second `/pair` with the correct secret from a different
chat re-binds the admin to that chat. -/
theorem c9_pairing_counterexample :
    (pairCommand "S3CR3T".toList ⟨"A".toList⟩ (some "B".toList)
      "S3CR3T".toList).1 = BotState.mk "B".toList ∧
    "B".toList ≠ "A".toList := by
  exact ⟨by decide, by decide⟩

/-- Claim C9, amended.  Pairing is established via the shared secret: a pair
command presenting the correct non-empty secret from a readable chat sets —
and persists — that chat as the admin, from any prior state (so pairing is
re-bindable, not once-only); a pair command with a wrong code never changes
the stored admin; and all approval-channel authorization is bound to the
currently paired principal: `isAdmin` accepts exactly the paired chat id and
rejects everything while unpaired. -/
theorem c9_pairing_amended :
    (∀ (secret : Str) (st : BotState) (c : Str),
      secret.isEmpty = false → c.isEmpty = false →
      pairCommand secret st (some c) secret = (⟨c⟩, PairReply.paired)) ∧
    (∀ (secret : Str) (st : BotState) (chatId : Option Str) (code : Str),
      ¬ (code = secret) → (pairCommand secret st chatId code).1 = st) ∧
    (∀ (st : BotState) (c : Str),
      isAdmin st (some c) = (!(st.adminChatId.isEmpty) && (c == st.adminChatId))) ∧
    (∀ st : BotState, isAdmin st none = false) := by
  refine ⟨?_, ?_, ?_, ?_⟩
  · intro secret st c hsec hc
    simp [pairCommand, hsec, hc]
  · intro secret st chatId code hne
    by_cases h1 : secret.isEmpty = true
    · simp [pairCommand, h1]
    · by_cases h2 : code.isEmpty = true
      · simp [pairCommand, h1, h2]
      · simp [pairCommand, h1, h2, hne]
  · intro st c
    rw [isAdmin]
    by_cases h : st.adminChatId.isEmpty = true
    · rw [if_pos h, h]
      rfl
    · rw [if_neg h]
      have : st.adminChatId.isEmpty = false := by
        cases hx : st.adminChatId.isEmpty
        · rfl
        · exact absurd hx h
      rw [this]
      rfl
  · intro st
    rw [isAdmin]
    by_cases h : st.adminChatId.isEmpty = true
    · rw [if_pos h]
    · rw [if_neg h]

/-- Claim C9, witness: the amended pairing theorem at concrete inputs — a
first pair from an unpaired state, and a wrong-code attempt against a paired
state — hypotheses discharged by evaluation. -/
theorem c9_pairing_amended_witness :
    pairCommand "S3CR3T".toList ⟨[]⟩ (some "B".toList) "S3CR3T".toList =
      (⟨"B".toList⟩, PairReply.paired) ∧
    (pairCommand "S3CR3T".toList ⟨"A".toList⟩ none "bad".toList).1 =
      ⟨"A".toList⟩ :=
  ⟨c9_pairing_amended.1 "S3CR3T".toList ⟨[]⟩ "B".toList (by decide) (by decide),
   c9_pairing_amended.2.1 "S3CR3T".toList ⟨"A".toList⟩ none "bad".toList
     (by decide)⟩

end Portero
